import Mathlib

/-!
Verification of the cw-starter voting contract (`src/contract.rs`).

The contract keeps three persisted pieces of data: a singleton `Config`,
a map from poll id to `Poll` (question plus an ordered list of
(option label, u64 vote count) pairs) and a map from (voter, poll id)
to `Ballot` (the voter's currently selected option label).

The store is modelled as an association list with `mayLoad` / `save`
mirroring `Map::may_load` / `Map::save`; `BALLOTS.update` is inlined as
a read followed by a write.  u64 arithmetic is modelled on `Nat` with
explicit checks at the 2^64 boundary: `-= 1` on a zero count and
`+= 1` at the maximum are overflow events (`none`), surfacing as a
`panicked` outcome, matching checked arithmetic in the test builds.
-/

namespace CwStarter

/-- `Map::may_load`: first binding of the key, if any. -/
def mayLoad {K V : Type} [DecidableEq K] : List (K × V) → K → Option V
  | [], _ => none
  | (k', v) :: rest, k => if k' = k then some v else mayLoad rest k

/-- `Map::save`: overwrite the binding of the key (insert if absent). -/
def save {K V : Type} [DecidableEq K] : List (K × V) → K → V → List (K × V)
  | [], k, v => [(k, v)]
  | (k', v') :: rest, k, v =>
      if k' = k then (k, v) :: rest else (k', v') :: save rest k v

structure Config where
  admin : String
deriving DecidableEq

structure Ballot where
  option : String
deriving DecidableEq

structure Poll where
  creator : String
  question : String
  options : List (String × Nat)
deriving DecidableEq

structure ContractState where
  config : Option Config
  polls : List (String × Poll)
  ballots : List ((String × String) × Ballot)
deriving DecidableEq

inductive ContractError
  | std
  | tooManyOptions
  | pollNotFound
  | optionNotFound
deriving DecidableEq

/-- Outcome of one entry-point call: success, a `ContractError`, or a
Rust panic (failed `unwrap` or checked-arithmetic overflow). -/
inductive Outcome
  | ok
  | err (e : ContractError)
  | panicked
deriving DecidableEq

/-- Result state paired with the outcome; on `panicked` the state holds
exactly the writes committed before the panic point. -/
structure ExecResult where
  outcome : Outcome
  state : ContractState
deriving DecidableEq

/-- Checked u64 decrement (`x -= 1`): underflows at 0. -/
def u64_dec (n : Nat) : Option Nat :=
  if n = 0 then none else some (n - 1)

/-- Checked u64 increment (`x += 1`): overflows at 2^64 - 1. -/
def u64_inc (n : Nat) : Option Nat :=
  if n + 1 < 2 ^ 64 then some (n + 1) else none

/-- `Iterator::position`: index of the first element satisfying `p`. -/
def position (p : String × Nat → Bool) : List (String × Nat) → Option Nat
  | [] => none
  | o :: rest => if p o then some 0 else (position p rest).map (· + 1)

/-- `poll.options[i].1 = f(poll.options[i].1)` with a checked operation. -/
def adjustAt (f : Nat → Option Nat) : List (String × Nat) → Nat → Option (List (String × Nat))
  | [], _ => none
  | (l, c) :: rest, 0 => (f c).map fun c2 => (l, c2) :: rest
  | o :: rest, i + 1 => (adjustAt f rest i).map fun r => o :: r

/-- `instantiate`: admin defaults to the sender, is validated, stored. -/
def instantiate (validate : String → Option String) (sender : String)
    (admin : Option String) (s : ContractState) : ExecResult :=
  match validate (admin.getD sender) with
  | none => ⟨.err .std, s⟩
  | some va => ⟨.ok, { s with config := some ⟨va⟩ }⟩

/-- `execute_create_poll`: reject more than 10 options, else store the
poll with every count at 0 (overwriting any poll at that id). -/
def execute_create_poll (sender poll_id question : String)
    (options : List String) (s : ContractState) : ExecResult :=
  if options.length > 10 then ⟨.err .tooManyOptions, s⟩
  else
    let poll : Poll := ⟨sender, question, options.map fun o => (o, 0)⟩
    ⟨.ok, { s with polls := save s.polls poll_id poll }⟩

/-- Tail of `execute_vote` after the ballot upsert: find the requested
option, increment it, persist the poll. -/
def voteFinish (poll_id vote : String) (poll : Poll) (s : ContractState) : ExecResult :=
  match position (fun o => o.1 == vote) poll.options with
  | none => ⟨.err .optionNotFound, s⟩
  | some pos =>
    match adjustAt u64_inc poll.options pos with
    | none => ⟨.panicked, s⟩
    | some opts2 =>
      ⟨.ok, { s with polls := save s.polls poll_id { poll with options := opts2 } }⟩

/-- `execute_vote`: load the poll; inside `BALLOTS.update`, look up the
previous ballot, decrement its option's count (unwrap panics if the
label is absent, the subtraction underflows at 0) and write the new
ballot; then validate the requested option, increment, save the poll. -/
def execute_vote (sender poll_id vote : String) (s : ContractState) : ExecResult :=
  match mayLoad s.polls poll_id with
  | none => ⟨.err .pollNotFound, s⟩
  | some poll =>
    match mayLoad s.ballots (sender, poll_id) with
    | none =>
      voteFinish poll_id vote poll
        { s with ballots := save s.ballots (sender, poll_id) ⟨vote⟩ }
    | some ballot =>
      match position (fun o => o.1 == ballot.option) poll.options with
      | none => ⟨.panicked, s⟩
      | some pos =>
        match adjustAt u64_dec poll.options pos with
        | none => ⟨.panicked, s⟩
        | some optsD =>
          voteFinish poll_id vote { poll with options := optsD }
            { s with ballots := save s.ballots (sender, poll_id) ⟨vote⟩ }

/-- One externally triggered call. -/
inductive Action
  | init (sender : String) (admin : Option String)
  | createPoll (sender poll_id question : String) (options : List String)
  | vote (sender poll_id vote : String)
deriving DecidableEq

def step (validate : String → Option String) (a : Action) (s : ContractState) : ExecResult :=
  match a with
  | .init sender admin => instantiate validate sender admin s
  | .createPoll sender pid q opts => execute_create_poll sender pid q opts s
  | .vote sender pid v => execute_vote sender pid v s

/-- Run a sequence of calls, each continuing from the state the
previous call left behind (mutated even on some failures). -/
def run (validate : String → Option String) (s : ContractState) : List Action → ContractState
  | [] => s
  | a :: as => run validate (step validate a s).state as

def initState : ContractState := ⟨none, [], []⟩

/-- A trivial address validator for concrete executions. -/
def validate0 : String → Option String := fun a => some a

/-- The action creates no poll at an already-used poll id. -/
def freshCreate (s : ContractState) : Action → Bool
  | .createPoll _ pid _ _ => (mayLoad s.polls pid).isNone
  | _ => true

/-- The action is not a failing `Vote`. -/
def voteSucceeds (_validate : String → Option String) (s : ContractState) : Action → Bool
  | .vote sender pid v => decide ((execute_vote sender pid v s).outcome = .ok)
  | _ => true

/-- Every `Vote` in the sequence succeeds and every `CreatePoll` uses a
fresh poll id. -/
def goodRun (validate : String → Option String) (s : ContractState) : List Action → Bool
  | [] => true
  | a :: as =>
      freshCreate s a && voteSucceeds validate s a &&
        goodRun validate (step validate a s).state as

/-- Number of ballots on poll `pid` selecting label `lbl`. -/
def ballotCount (bs : List ((String × String) × Ballot)) (pid lbl : String) : Nat :=
  bs.countP fun e => e.1.2 == pid && e.2.option == lbl

/-- Number of ballots on poll `pid` (one per voter: keys are unique). -/
def totalBallots (bs : List ((String × String) × Ballot)) (pid : String) : Nat :=
  bs.countP fun e => e.1.2 == pid

/-- Sum of all option tallies of a poll. -/
def tallySum (opts : List (String × Nat)) : Nat :=
  (opts.map Prod.snd).sum

def keysNodup {K V : Type} (m : List (K × V)) : Prop :=
  (m.map Prod.fst).Nodup

def optDflt : String × Nat := ("", 0)

/-- Each tally equals the ballot count of its label if it is the first
entry bearing that label, and 0 otherwise. -/
def PollInv (bs : List ((String × String) × Ballot)) (pid : String) (poll : Poll) : Prop :=
  ∀ i, i < poll.options.length →
    (poll.options.getD i optDflt).2 =
      if position (fun o => o.1 == (poll.options.getD i optDflt).1) poll.options = some i
      then ballotCount bs pid (poll.options.getD i optDflt).1
      else 0

/-- Inductive invariant of good runs. -/
def Inv (s : ContractState) : Prop :=
  keysNodup s.polls ∧ keysNodup s.ballots ∧
  (∀ pid poll, mayLoad s.polls pid = some poll → PollInv s.ballots pid poll) ∧
  (∀ v pid b, mayLoad s.ballots (v, pid) = some b →
    ∃ poll, mayLoad s.polls pid = some poll ∧ b.option ∈ poll.options.map Prod.fst) ∧
  (∀ pid poll, mayLoad s.polls pid = some poll →
    tallySum poll.options = totalBallots s.ballots pid)

/-! ### Store lemmas -/

theorem save_cons_self {K V : Type} [DecidableEq K] (rest : List (K × V)) (k : K) (v v0 : V) :
    save ((k, v0) :: rest) k v = (k, v) :: rest := by
  simp [save]

theorem mayLoad_cons_self {K V : Type} [DecidableEq K] (rest : List (K × V)) (k : K) (v0 : V) :
    mayLoad ((k, v0) :: rest) k = some v0 := by
  simp [mayLoad]

theorem mayLoad_save_self {K V : Type} [DecidableEq K] (m : List (K × V)) (k : K) (v : V) :
    mayLoad (save m k v) k = some v := by
  induction m with
  | nil => simp [save, mayLoad]
  | cons e rest ih =>
    obtain ⟨k', v'⟩ := e
    by_cases h : k' = k <;> simp [save, mayLoad, h, ih]

theorem mayLoad_save_other {K V : Type} [DecidableEq K] (m : List (K × V)) (k k' : K) (v : V)
    (h : k' ≠ k) : mayLoad (save m k v) k' = mayLoad m k' := by
  have hk : ¬ k = k' := fun h2 => h h2.symm
  induction m with
  | nil => simp [save, mayLoad, hk]
  | cons e rest ih =>
    obtain ⟨k0, v0⟩ := e
    by_cases h0 : k0 = k
    · subst h0
      simp [save, mayLoad, hk]
    · simp only [save, if_neg h0, mayLoad]
      by_cases h1 : k0 = k' <;> simp [h1, ih]

theorem save_self {K V : Type} [DecidableEq K] (m : List (K × V)) (k : K) (v : V)
    (h : mayLoad m k = some v) : save m k v = m := by
  induction m with
  | nil => simp [mayLoad] at h
  | cons e rest ih =>
    obtain ⟨k0, v0⟩ := e
    by_cases h0 : k0 = k
    · subst h0
      simp [mayLoad] at h
      simp [save, h]
    · simp [mayLoad, h0] at h
      simp [save, h0, ih h]

theorem mem_keys_save {K V : Type} [DecidableEq K] (m : List (K × V)) (k a : K) (v : V) :
    a ∈ (save m k v).map Prod.fst ↔ a ∈ m.map Prod.fst ∨ a = k := by
  induction m with
  | nil => simp [save]
  | cons e rest ih =>
    obtain ⟨k0, v0⟩ := e
    by_cases h0 : k0 = k
    · subst h0
      rw [save_cons_self]
      simp only [List.map_cons, List.mem_cons]
      tauto
    · simp only [save, if_neg h0, List.map_cons, List.mem_cons, ih]
      tauto

theorem keysNodup_save {K V : Type} [DecidableEq K] (m : List (K × V)) (k : K) (v : V)
    (h : keysNodup m) : keysNodup (save m k v) := by
  induction m with
  | nil => simp [keysNodup, save]
  | cons e rest ih =>
    obtain ⟨k0, v0⟩ := e
    simp only [keysNodup, List.map_cons, List.nodup_cons] at h
    by_cases h0 : k0 = k
    · subst h0
      simpa [keysNodup, save] using h
    · have := ih h.2
      simp only [keysNodup, save, if_neg h0, List.map_cons, List.nodup_cons]
      refine ⟨?_, this⟩
      rw [mem_keys_save]
      rintro (hm | hm)
      · exact h.1 hm
      · exact h0 hm

theorem mayLoad_eq_none_iff {K V : Type} [DecidableEq K] (m : List (K × V)) (k : K) :
    mayLoad m k = none ↔ k ∉ m.map Prod.fst := by
  induction m with
  | nil => simp [mayLoad]
  | cons e rest ih =>
    obtain ⟨k0, v0⟩ := e
    by_cases h0 : k0 = k
    · subst h0
      simp [mayLoad]
    · have hk : ¬ k = k0 := fun h2 => h0 h2.symm
      simp [mayLoad, h0, ih, hk]

theorem save_of_not_mem {K V : Type} [DecidableEq K] (m : List (K × V)) (k : K) (v : V)
    (h : mayLoad m k = none) : save m k v = m ++ [(k, v)] := by
  induction m with
  | nil => simp [save]
  | cons e rest ih =>
    obtain ⟨k0, v0⟩ := e
    by_cases h0 : k0 = k
    · simp [mayLoad, h0] at h
    · simp [mayLoad, h0] at h
      simp [save, h0, ih h]

theorem countP_save_fresh {K V : Type} [DecidableEq K] (m : List (K × V)) (k : K) (v : V)
    (p : K × V → Bool) (h : mayLoad m k = none) :
    (save m k v).countP p = m.countP p + (if p (k, v) then 1 else 0) := by
  rw [save_of_not_mem m k v h, List.countP_append]
  simp [List.countP_cons]

theorem countP_save_replace {K V : Type} [DecidableEq K] (m : List (K × V)) (k : K) (b v : V)
    (p : K × V → Bool) (h : mayLoad m k = some b) :
    (save m k v).countP p + (if p (k, b) then 1 else 0) =
      m.countP p + (if p (k, v) then 1 else 0) := by
  induction m with
  | nil => simp [mayLoad] at h
  | cons e rest ih =>
    obtain ⟨k0, v0⟩ := e
    by_cases h0 : k0 = k
    · subst h0
      rw [mayLoad_cons_self, Option.some_inj] at h
      subst h
      rw [save_cons_self]
      simp only [List.countP_cons]
      omega
    · simp only [mayLoad, if_neg h0] at h
      simp only [save, if_neg h0, List.countP_cons]
      have := ih h
      omega

theorem mayLoad_of_mem_nodup {K V : Type} [DecidableEq K] (m : List (K × V))
    (e : K × V) (hnd : keysNodup m) (hm : e ∈ m) : mayLoad m e.1 = some e.2 := by
  induction m with
  | nil => simp at hm
  | cons e0 rest ih =>
    obtain ⟨k0, v0⟩ := e0
    simp only [keysNodup, List.map_cons, List.nodup_cons] at hnd
    rcases List.mem_cons.mp hm with h | h
    · subst h
      simp [mayLoad]
    · have hk : k0 ≠ e.1 := by
        intro hq
        exact hnd.1 (hq ▸ List.mem_map_of_mem Prod.fst h)
      simp [mayLoad, hk, ih hnd.2 h]

/-! ### `position` lemmas -/

theorem position_lt (p : String × Nat → Bool) (l : List (String × Nat)) (i : Nat)
    (h : position p l = some i) : i < l.length := by
  induction l generalizing i with
  | nil => simp [position] at h
  | cons o rest ih =>
    by_cases hp : p o = true
    · simp [position, hp] at h
      simp [← h]
    · simp [position, hp] at h
      obtain ⟨j, hj, hji⟩ := h
      have := ih j hj
      simp
      omega

theorem position_getD (p : String × Nat → Bool) (l : List (String × Nat)) (i : Nat)
    (h : position p l = some i) : p (l.getD i optDflt) = true := by
  induction l generalizing i with
  | nil => simp [position] at h
  | cons o rest ih =>
    by_cases hp : p o = true
    · simp [position, hp] at h
      simp [← h, hp]
    · simp [position, hp] at h
      obtain ⟨j, hj, hji⟩ := h
      rw [← hji]
      simpa using ih j hj

theorem position_earlier (p : String × Nat → Bool) (l : List (String × Nat)) (i : Nat)
    (h : position p l = some i) : ∀ j, j < i → p (l.getD j optDflt) = false := by
  induction l generalizing i with
  | nil => simp [position] at h
  | cons o rest ih =>
    by_cases hp : p o = true
    · simp [position, hp] at h
      omega
    · simp [position, hp] at h
      obtain ⟨j0, hj0, hji⟩ := h
      intro j hj
      match j with
      | 0 => simpa using hp
      | j' + 1 =>
        have : j' < j0 := by omega
        simpa using ih j0 hj0 j' this

theorem position_rev (p : String × Nat → Bool) (l : List (String × Nat)) (i : Nat)
    (hi : i < l.length) (hp : p (l.getD i optDflt) = true)
    (he : ∀ j, j < i → p (l.getD j optDflt) = false) : position p l = some i := by
  induction l generalizing i with
  | nil => simp at hi
  | cons o rest ih =>
    match i with
    | 0 =>
      simp at hp
      simp [position, hp]
    | i' + 1 =>
      have h0 : p o = false := by simpa using he 0 (by omega)
      have hrest : position p rest = some i' := by
        refine ih i' (by simpa using hi) (by simpa using hp) ?_
        intro j hj
        simpa using he (j + 1) (by omega)
      simp [position, h0, hrest]

theorem position_none_iff (p : String × Nat → Bool) (l : List (String × Nat)) :
    position p l = none ↔ ∀ x ∈ l, p x = false := by
  induction l with
  | nil => simp [position]
  | cons o rest ih =>
    by_cases hp : p o = true
    · simp [position, hp]
    · simp only [Bool.not_eq_true] at hp
      simp [position, hp, ih]

theorem position_congr (l1 l2 : List (String × Nat)) (lbl : String)
    (h : l1.map Prod.fst = l2.map Prod.fst) :
    position (fun o => o.1 == lbl) l1 = position (fun o => o.1 == lbl) l2 := by
  induction l1 generalizing l2 with
  | nil =>
    have : l2 = [] := by
      cases l2 with
      | nil => rfl
      | cons b r => simp at h
    simp [this]
  | cons a r1 ih =>
    cases l2 with
    | nil => simp at h
    | cons b r2 =>
      simp only [List.map_cons, List.cons.injEq] at h
      simp [position, h.1, ih r2 h.2]

theorem mem_fst_of_position (l : List (String × Nat)) (lbl : String) (i : Nat)
    (h : position (fun o => o.1 == lbl) l = some i) : lbl ∈ l.map Prod.fst := by
  induction l generalizing i with
  | nil => simp [position] at h
  | cons o rest ih =>
    by_cases hp : o.1 == lbl
    · simp
      left
      exact (eq_of_beq hp).symm
    · simp only [position, hp] at h
      rw [if_neg (by simp [hp])] at h
      obtain ⟨j, hj, _⟩ := Option.map_eq_some'.mp h
      simp
      right
      have := ih j hj
      simpa using this

theorem position_isSome_of_mem (l : List (String × Nat)) (lbl : String)
    (hm : lbl ∈ l.map Prod.fst) : ∃ i, position (fun o => o.1 == lbl) l = some i := by
  cases hpos : position (fun o => o.1 == lbl) l with
  | some i => exact ⟨i, rfl⟩
  | none =>
    exfalso
    obtain ⟨x, hx, hfst⟩ := List.mem_map.mp hm
    have := (position_none_iff _ l).mp hpos x hx
    simp [hfst] at this

/-! ### `adjustAt` lemmas -/

theorem adjustAt_lt (f : Nat → Option Nat) (l : List (String × Nat)) (i : Nat)
    (r : List (String × Nat)) (h : adjustAt f l i = some r) : i < l.length := by
  induction l generalizing i r with
  | nil => simp [adjustAt] at h
  | cons o rest ih =>
    match i with
    | 0 => simp
    | i' + 1 =>
      obtain ⟨lb, c⟩ := o
      simp only [adjustAt] at h
      obtain ⟨r', hr', _⟩ := Option.map_eq_some'.mp h
      have := ih i' r' hr'
      simp
      omega

theorem adjustAt_map_fst (f : Nat → Option Nat) (l : List (String × Nat)) (i : Nat)
    (r : List (String × Nat)) (h : adjustAt f l i = some r) :
    r.map Prod.fst = l.map Prod.fst := by
  induction l generalizing i r with
  | nil => simp [adjustAt] at h
  | cons o rest ih =>
    obtain ⟨lb, c⟩ := o
    match i with
    | 0 =>
      simp only [adjustAt] at h
      obtain ⟨c2, _, hr⟩ := Option.map_eq_some'.mp h
      simp [← hr]
    | i' + 1 =>
      simp only [adjustAt] at h
      obtain ⟨r', hr', hr⟩ := Option.map_eq_some'.mp h
      simp [← hr, ih i' r' hr']

theorem adjustAt_length (f : Nat → Option Nat) (l : List (String × Nat)) (i : Nat)
    (r : List (String × Nat)) (h : adjustAt f l i = some r) : r.length = l.length := by
  have := adjustAt_map_fst f l i r h
  have h1 : (r.map Prod.fst).length = (l.map Prod.fst).length := by rw [this]
  simpa using h1

theorem adjustAt_getD_ne (f : Nat → Option Nat) (l : List (String × Nat)) (i : Nat)
    (r : List (String × Nat)) (h : adjustAt f l i = some r) (j : Nat) (hne : j ≠ i) :
    r.getD j optDflt = l.getD j optDflt := by
  induction l generalizing i j r with
  | nil => simp [adjustAt] at h
  | cons o rest ih =>
    obtain ⟨lb, c⟩ := o
    match i with
    | 0 =>
      simp only [adjustAt] at h
      obtain ⟨c2, _, hr⟩ := Option.map_eq_some'.mp h
      match j with
      | 0 => omega
      | j' + 1 => simp [← hr]
    | i' + 1 =>
      simp only [adjustAt] at h
      obtain ⟨r', hr', hr⟩ := Option.map_eq_some'.mp h
      match j with
      | 0 => simp [← hr]
      | j' + 1 =>
        have := ih i' r' hr' j' (by omega)
        simp only [← hr, List.getD_cons_succ]
        exact this

theorem adjustAt_getD_eq (f : Nat → Option Nat) (l : List (String × Nat)) (i : Nat)
    (r : List (String × Nat)) (h : adjustAt f l i = some r) :
    ∃ c2, f (l.getD i optDflt).2 = some c2 ∧
      r.getD i optDflt = ((l.getD i optDflt).1, c2) := by
  induction l generalizing i r with
  | nil => simp [adjustAt] at h
  | cons o rest ih =>
    obtain ⟨lb, c⟩ := o
    match i with
    | 0 =>
      simp only [adjustAt] at h
      obtain ⟨c2, hc2, hr⟩ := Option.map_eq_some'.mp h
      exact ⟨c2, by simpa using hc2, by simp [← hr]⟩
    | i' + 1 =>
      simp only [adjustAt] at h
      obtain ⟨r', hr', hr⟩ := Option.map_eq_some'.mp h
      obtain ⟨c2, hc2, hg⟩ := ih i' r' hr'
      refine ⟨c2, by simpa using hc2, ?_⟩
      simp only [← hr, List.getD_cons_succ]
      exact hg

theorem adjustAt_of_some (f : Nat → Option Nat) (l : List (String × Nat)) (i : Nat)
    (c2 : Nat) (hi : i < l.length) (hf : f (l.getD i optDflt).2 = some c2) :
    ∃ r, adjustAt f l i = some r := by
  induction l generalizing i with
  | nil => simp at hi
  | cons o rest ih =>
    obtain ⟨lb, c⟩ := o
    match i with
    | 0 =>
      simp at hf
      exact ⟨(lb, c2) :: rest, by simp [adjustAt, hf]⟩
    | i' + 1 =>
      obtain ⟨r', hr'⟩ := ih i' (by simpa using hi) (by simpa using hf)
      exact ⟨(lb, c) :: r', by simp [adjustAt, hr']⟩

theorem u64_dec_eq_some (c c2 : Nat) (h : u64_dec c = some c2) : c ≠ 0 ∧ c2 = c - 1 := by
  unfold u64_dec at h
  by_cases hc : c = 0
  · rw [if_pos hc] at h
    cases h
  · rw [if_neg hc] at h
    exact ⟨hc, (Option.some_inj.mp h).symm⟩

theorem u64_inc_eq_some (c c2 : Nat) (h : u64_inc c = some c2) : c2 = c + 1 := by
  unfold u64_inc at h
  by_cases hc : c + 1 < 2 ^ 64
  · rw [if_pos hc] at h
    exact (Option.some_inj.mp h).symm
  · rw [if_neg hc] at h
    cases h

theorem adjustAt_sum_inc (l : List (String × Nat)) (i : Nat) (r : List (String × Nat))
    (h : adjustAt u64_inc l i = some r) : tallySum r = tallySum l + 1 := by
  induction l generalizing i r with
  | nil => simp [adjustAt] at h
  | cons o rest ih =>
    obtain ⟨lb, c⟩ := o
    match i with
    | 0 =>
      simp only [adjustAt] at h
      obtain ⟨c2, hc2, hr⟩ := Option.map_eq_some'.mp h
      have := u64_inc_eq_some c c2 hc2
      simp [← hr, tallySum, this]
      omega
    | i' + 1 =>
      simp only [adjustAt] at h
      obtain ⟨r', hr', hr⟩ := Option.map_eq_some'.mp h
      have := ih i' r' hr'
      simp [← hr, tallySum] at this ⊢
      omega

theorem adjustAt_sum_dec (l : List (String × Nat)) (i : Nat) (r : List (String × Nat))
    (h : adjustAt u64_dec l i = some r) : tallySum r + 1 = tallySum l := by
  induction l generalizing i r with
  | nil => simp [adjustAt] at h
  | cons o rest ih =>
    obtain ⟨lb, c⟩ := o
    match i with
    | 0 =>
      simp only [adjustAt] at h
      obtain ⟨c2, hc2, hr⟩ := Option.map_eq_some'.mp h
      have := u64_dec_eq_some c c2 hc2
      simp [← hr, tallySum, this.2]
      omega
    | i' + 1 =>
      simp only [adjustAt] at h
      obtain ⟨r', hr', hr⟩ := Option.map_eq_some'.mp h
      have := ih i' r' hr'
      simp [← hr, tallySum] at this ⊢
      omega

theorem adjustAt_dec_inc (l : List (String × Nat)) (i : Nat) (r r2 : List (String × Nat))
    (h1 : adjustAt u64_dec l i = some r) (h2 : adjustAt u64_inc r i = some r2) : r2 = l := by
  induction l generalizing i r r2 with
  | nil => simp [adjustAt] at h1
  | cons o rest ih =>
    obtain ⟨lb, c⟩ := o
    match i with
    | 0 =>
      simp only [adjustAt] at h1
      obtain ⟨c', hc', hr⟩ := Option.map_eq_some'.mp h1
      obtain ⟨hne, hsub⟩ := u64_dec_eq_some c c' hc'
      subst hsub
      rw [← hr] at h2
      simp only [adjustAt] at h2
      obtain ⟨c'', hc'', hr2⟩ := Option.map_eq_some'.mp h2
      have := u64_inc_eq_some _ _ hc''
      rw [← hr2, this]
      have : c - 1 + 1 = c := by omega
      rw [this]
    | i' + 1 =>
      simp only [adjustAt] at h1
      obtain ⟨r', hr', hr⟩ := Option.map_eq_some'.mp h1
      rw [← hr] at h2
      simp only [adjustAt] at h2
      obtain ⟨r'', hr'', hr2⟩ := Option.map_eq_some'.mp h2
      rw [← hr2, ih i' r' r'' hr' hr'']

/-! ### Counting helpers -/

theorem ballotCount_eq_zero (bs : List ((String × String) × Ballot)) (pid lbl : String)
    (h : ∀ e ∈ bs, e.1.2 ≠ pid) : ballotCount bs pid lbl = 0 := by
  rw [ballotCount, List.countP_eq_zero]
  intro e he
  simp [h e he]

theorem totalBallots_eq_zero (bs : List ((String × String) × Ballot)) (pid : String)
    (h : ∀ e ∈ bs, e.1.2 ≠ pid) : totalBallots bs pid = 0 := by
  rw [totalBallots, List.countP_eq_zero]
  intro e he
  simp [h e he]

theorem no_ballots_of_no_poll (s : ContractState) (hInv : Inv s) (pid : String)
    (h : mayLoad s.polls pid = none) : ∀ e ∈ s.ballots, e.1.2 ≠ pid := by
  intro e he hpid
  have hball : mayLoad s.ballots e.1 = some e.2 :=
    mayLoad_of_mem_nodup s.ballots e hInv.2.1 he
  have hkey : e.1 = (e.1.1, pid) := by
    obtain ⟨⟨v, p⟩, b⟩ := e
    simp only at hpid
    simp [hpid]
  rw [hkey] at hball
  obtain ⟨poll, hpoll, _⟩ := hInv.2.2.2.1 e.1.1 pid e.2 hball
  rw [h] at hpoll
  cases hpoll

theorem getD_map_zero (opts : List String) (i : Nat) (hi : i < opts.length) :
    (opts.map fun o => (o, (0 : Nat))).getD i optDflt = (opts.getD i "", 0) := by
  induction opts generalizing i with
  | nil => simp at hi
  | cons o rest ih =>
    match i with
    | 0 => simp
    | i' + 1 =>
      simp only [List.map_cons, List.getD_cons_succ]
      exact ih i' (by simpa using hi)

theorem tallySum_map_zero (opts : List String) :
    tallySum (opts.map fun o => (o, (0 : Nat))) = 0 := by
  induction opts with
  | nil => simp [tallySum]
  | cons o rest ih => simpa [tallySum] using ih

/-! ### Branch equations for the vote transition -/

theorem voteFinish_not_found (poll_id vote : String) (poll : Poll) (s : ContractState)
    (hpos : position (fun o => o.1 == vote) poll.options = none) :
    voteFinish poll_id vote poll s = ⟨.err .optionNotFound, s⟩ := by
  unfold voteFinish
  simp only [hpos]

theorem voteFinish_inc (poll_id vote : String) (poll : Poll) (s : ContractState)
    (ip : Nat) (opts2 : List (String × Nat))
    (hpos : position (fun o => o.1 == vote) poll.options = some ip)
    (hadj : adjustAt u64_inc poll.options ip = some opts2) :
    voteFinish poll_id vote poll s =
      ⟨.ok, { s with polls := save s.polls poll_id { poll with options := opts2 } }⟩ := by
  unfold voteFinish
  simp only [hpos, hadj]

theorem voteFinish_inc_panic (poll_id vote : String) (poll : Poll) (s : ContractState)
    (ip : Nat) (hpos : position (fun o => o.1 == vote) poll.options = some ip)
    (hadj : adjustAt u64_inc poll.options ip = none) :
    voteFinish poll_id vote poll s = ⟨.panicked, s⟩ := by
  unfold voteFinish
  simp only [hpos, hadj]

theorem execute_vote_no_poll (sender pid vote : String) (s : ContractState)
    (h : mayLoad s.polls pid = none) :
    execute_vote sender pid vote s = ⟨.err .pollNotFound, s⟩ := by
  unfold execute_vote
  simp only [h]

theorem execute_vote_no_ballot (sender pid vote : String) (s : ContractState) (poll : Poll)
    (hpoll : mayLoad s.polls pid = some poll)
    (hball : mayLoad s.ballots (sender, pid) = none) :
    execute_vote sender pid vote s =
      voteFinish pid vote poll
        { s with ballots := save s.ballots (sender, pid) ⟨vote⟩ } := by
  unfold execute_vote
  simp only [hpoll, hball]

theorem execute_vote_unwrap_panic (sender pid vote : String) (s : ContractState)
    (poll : Poll) (b : Ballot) (hpoll : mayLoad s.polls pid = some poll)
    (hball : mayLoad s.ballots (sender, pid) = some b)
    (hpos : position (fun o => o.1 == b.option) poll.options = none) :
    execute_vote sender pid vote s = ⟨.panicked, s⟩ := by
  unfold execute_vote
  simp only [hpoll, hball, hpos]

theorem execute_vote_dec_panic (sender pid vote : String) (s : ContractState)
    (poll : Poll) (b : Ballot) (po : Nat) (hpoll : mayLoad s.polls pid = some poll)
    (hball : mayLoad s.ballots (sender, pid) = some b)
    (hpos : position (fun o => o.1 == b.option) poll.options = some po)
    (hadj : adjustAt u64_dec poll.options po = none) :
    execute_vote sender pid vote s = ⟨.panicked, s⟩ := by
  unfold execute_vote
  simp only [hpoll, hball, hpos, hadj]

theorem execute_vote_prev_ballot (sender pid vote : String) (s : ContractState)
    (poll : Poll) (b : Ballot) (po : Nat) (optsD : List (String × Nat))
    (hpoll : mayLoad s.polls pid = some poll)
    (hball : mayLoad s.ballots (sender, pid) = some b)
    (hpos : position (fun o => o.1 == b.option) poll.options = some po)
    (hadj : adjustAt u64_dec poll.options po = some optsD) :
    execute_vote sender pid vote s =
      voteFinish pid vote { poll with options := optsD }
        { s with ballots := save s.ballots (sender, pid) ⟨vote⟩ } := by
  unfold execute_vote
  simp only [hpoll, hball, hpos, hadj]

/-! ### Inversion of a successful vote -/

theorem voteFinish_ok (poll_id vote : String) (poll : Poll) (s : ContractState)
    (h : (voteFinish poll_id vote poll s).outcome = .ok) :
    ∃ ip opts2, position (fun o => o.1 == vote) poll.options = some ip ∧
      adjustAt u64_inc poll.options ip = some opts2 ∧
      (voteFinish poll_id vote poll s).state =
        { s with polls := save s.polls poll_id { poll with options := opts2 } } := by
  cases hpos : position (fun o => o.1 == vote) poll.options with
  | none => rw [voteFinish_not_found _ _ _ _ hpos] at h; cases h
  | some ip =>
    cases hadj : adjustAt u64_inc poll.options ip with
    | none => rw [voteFinish_inc_panic _ _ _ _ _ hpos hadj] at h; cases h
    | some opts2 =>
      rw [voteFinish_inc _ _ _ _ _ _ hpos hadj]
      exact ⟨ip, opts2, rfl, hadj, rfl⟩

theorem execute_vote_ok (sender pid vote : String) (s : ContractState)
    (h : (execute_vote sender pid vote s).outcome = .ok) :
    ∃ poll, mayLoad s.polls pid = some poll ∧
      ((mayLoad s.ballots (sender, pid) = none ∧
        ∃ ip opts2, position (fun o => o.1 == vote) poll.options = some ip ∧
          adjustAt u64_inc poll.options ip = some opts2 ∧
          (execute_vote sender pid vote s).state =
            { config := s.config,
              polls := save s.polls pid { poll with options := opts2 },
              ballots := save s.ballots (sender, pid) ⟨vote⟩ }) ∨
       (∃ b po optsD ip opts2, mayLoad s.ballots (sender, pid) = some b ∧
          position (fun o => o.1 == b.option) poll.options = some po ∧
          adjustAt u64_dec poll.options po = some optsD ∧
          position (fun o => o.1 == vote) optsD = some ip ∧
          adjustAt u64_inc optsD ip = some opts2 ∧
          (execute_vote sender pid vote s).state =
            { config := s.config,
              polls := save s.polls pid { poll with options := opts2 },
              ballots := save s.ballots (sender, pid) ⟨vote⟩ })) := by
  cases hpoll : mayLoad s.polls pid with
  | none => rw [execute_vote_no_poll _ _ _ _ hpoll] at h; cases h
  | some poll =>
    refine ⟨poll, rfl, ?_⟩
    cases hball : mayLoad s.ballots (sender, pid) with
    | none =>
      rw [execute_vote_no_ballot _ _ _ _ _ hpoll hball] at h ⊢
      obtain ⟨ip, opts2, hpos, hadj, hst⟩ := voteFinish_ok _ _ _ _ h
      exact Or.inl ⟨rfl, ip, opts2, hpos, hadj, hst⟩
    | some b =>
      cases hpos : position (fun o => o.1 == b.option) poll.options with
      | none => rw [execute_vote_unwrap_panic _ _ _ _ _ _ hpoll hball hpos] at h; cases h
      | some po =>
        cases hadj : adjustAt u64_dec poll.options po with
        | none => rw [execute_vote_dec_panic _ _ _ _ _ _ _ hpoll hball hpos hadj] at h; cases h
        | some optsD =>
          rw [execute_vote_prev_ballot _ _ _ _ _ _ _ _ hpoll hball hpos hadj] at h ⊢
          obtain ⟨ip, opts2, hpos2, hadj2, hst⟩ := voteFinish_ok _ _ _ _ h
          exact Or.inr ⟨b, po, optsD, ip, opts2, rfl, hpos, hadj, hpos2, hadj2, hst⟩

/-! ### Counting under ballot writes -/

theorem ballotCount_fresh (bs : List ((String × String) × Ballot)) (k : String × String)
    (nb : Ballot) (pid lbl : String) (h : mayLoad bs k = none) :
    ballotCount (save bs k nb) pid lbl =
      ballotCount bs pid lbl + (if k.2 = pid ∧ nb.option = lbl then 1 else 0) := by
  rw [ballotCount, countP_save_fresh _ _ _ _ h, ← ballotCount]
  congr 1
  by_cases h1 : k.2 = pid <;> by_cases h2 : nb.option = lbl <;> simp [h1, h2]

theorem ballotCount_replace (bs : List ((String × String) × Ballot)) (k : String × String)
    (b nb : Ballot) (pid lbl : String) (h : mayLoad bs k = some b) :
    ballotCount (save bs k nb) pid lbl + (if k.2 = pid ∧ b.option = lbl then 1 else 0) =
      ballotCount bs pid lbl + (if k.2 = pid ∧ nb.option = lbl then 1 else 0) := by
  have := countP_save_replace bs k b nb
    (fun e => e.1.2 == pid && e.2.option == lbl) h
  rw [ballotCount, ballotCount]
  have e1 : ∀ x : Ballot, (if ((k, x).1.2 == pid && (k, x).2.option == lbl) = true then 1 else 0) =
      (if k.2 = pid ∧ x.option = lbl then 1 else 0) := by
    intro x
    by_cases h1 : k.2 = pid <;> by_cases h2 : x.option = lbl <;> simp [h1, h2]
  rw [← e1 b, ← e1 nb]
  exact this

theorem totalBallots_fresh (bs : List ((String × String) × Ballot)) (k : String × String)
    (nb : Ballot) (pid : String) (h : mayLoad bs k = none) :
    totalBallots (save bs k nb) pid =
      totalBallots bs pid + (if k.2 = pid then 1 else 0) := by
  rw [totalBallots, countP_save_fresh _ _ _ _ h, ← totalBallots]
  congr 1
  by_cases h1 : k.2 = pid <;> simp [h1]

theorem totalBallots_replace (bs : List ((String × String) × Ballot)) (k : String × String)
    (b nb : Ballot) (pid : String) (h : mayLoad bs k = some b) :
    totalBallots (save bs k nb) pid = totalBallots bs pid := by
  have h2 := countP_save_replace bs k b nb (fun e => e.1.2 == pid) h
  have e1 : ∀ x : Ballot,
      (if ((fun (e : (String × String) × Ballot) => e.1.2 == pid) (k, x)) = true
        then 1 else 0) = (if k.2 = pid then 1 else 0) := by
    intro x
    by_cases h1 : k.2 = pid <;> simp [h1]
  rw [e1 b] at h2
  rw [totalBallots, totalBallots]
  omega

theorem getD_fst_eq_of_map_fst (l1 l2 : List (String × Nat))
    (h : l1.map Prod.fst = l2.map Prod.fst) (j : Nat) :
    (l1.getD j optDflt).1 = (l2.getD j optDflt).1 := by
  induction l1 generalizing l2 j with
  | nil =>
    cases l2 with
    | nil => rfl
    | cons b r => simp at h
  | cons a r1 ih =>
    cases l2 with
    | nil => simp at h
    | cons b r2 =>
      simp only [List.map_cons, List.cons.injEq] at h
      match j with
      | 0 => simpa using h.1
      | j' + 1 =>
        simp only [List.getD_cons_succ]
        exact ih r2 h.2 j'

theorem position_self (l : List (String × Nat)) (lbl : String) (i : Nat)
    (h : position (fun o => o.1 == lbl) l = some i) :
    position (fun o => o.1 == (l.getD i optDflt).1) l = some i := by
  have := position_getD _ _ _ h
  rw [show (l.getD i optDflt).1 = lbl from eq_of_beq (by simpa using this)]
  exact h

/-! ### Invariant preservation -/

theorem Inv_of_eq (s s' : ContractState) (hp : s'.polls = s.polls)
    (hb : s'.ballots = s.ballots) (h : Inv s) : Inv s' := by
  unfold Inv at h ⊢
  rw [hp, hb]
  exact h

theorem Inv_initState : Inv initState := by
  refine ⟨?_, ?_, ?_, ?_, ?_⟩
  · simp [keysNodup, initState]
  · simp [keysNodup, initState]
  · intro pid poll h
    simp [initState, mayLoad] at h
  · intro v pid b h
    simp [initState, mayLoad] at h
  · intro pid poll h
    simp [initState, mayLoad] at h

theorem instantiate_preserves (validate : String → Option String) (sender : String)
    (admin : Option String) (s : ContractState) (h : Inv s) :
    Inv (instantiate validate sender admin s).state := by
  unfold instantiate
  cases validate (admin.getD sender) with
  | none => exact h
  | some va => exact Inv_of_eq s _ rfl rfl h

theorem create_preserves (sender pid q : String) (opts : List String) (s : ContractState)
    (hInv : Inv s) (hfresh : mayLoad s.polls pid = none) :
    Inv (execute_create_poll sender pid q opts s).state := by
  obtain ⟨hnp, hnb, hpi, hbi, hsum⟩ := hInv
  have hnoball : ∀ e ∈ s.ballots, e.1.2 ≠ pid :=
    no_ballots_of_no_poll s ⟨hnp, hnb, hpi, hbi, hsum⟩ pid hfresh
  unfold execute_create_poll
  by_cases hlen : opts.length > 10
  · simp only [if_pos hlen]
    exact ⟨hnp, hnb, hpi, hbi, hsum⟩
  · simp only [if_neg hlen]
    show Inv { s with polls := save s.polls pid ⟨sender, q, opts.map fun o => (o, 0)⟩ }
    refine ⟨keysNodup_save _ _ _ hnp, hnb, ?_, ?_, ?_⟩
    · intro pid' poll' hload
      simp only at hload
      by_cases hp : pid' = pid
      · subst hp
        rw [mayLoad_save_self, Option.some_inj] at hload
        subst hload
        intro i hi
        simp only at hi ⊢
        have hi' : i < opts.length := by simpa using hi
        rw [getD_map_zero opts i hi']
        rw [ballotCount_eq_zero _ _ _ hnoball]
        simp
      · rw [mayLoad_save_other _ _ _ _ hp] at hload
        exact hpi pid' poll' hload
    · intro v' pid' b' hload
      simp only at hload
      obtain ⟨pollX, hpX, hmem⟩ := hbi v' pid' b' hload
      by_cases hp : pid' = pid
      · subst hp
        rw [hfresh] at hpX
        cases hpX
      · exact ⟨pollX, by simpa [mayLoad_save_other _ _ _ _ hp] using hpX, hmem⟩
    · intro pid' poll' hload
      simp only at hload ⊢
      by_cases hp : pid' = pid
      · subst hp
        rw [mayLoad_save_self, Option.some_inj] at hload
        subst hload
        rw [totalBallots_eq_zero _ _ hnoball]
        exact tallySum_map_zero opts
      · rw [mayLoad_save_other _ _ _ _ hp] at hload
        exact hsum pid' poll' hload

theorem PollInv_congr (bs bs' : List ((String × String) × Ballot)) (pid : String)
    (poll : Poll) (hc : ∀ lbl, ballotCount bs' pid lbl = ballotCount bs pid lbl)
    (h : PollInv bs pid poll) : PollInv bs' pid poll := by
  intro i hi
  rw [hc]
  exact h i hi

theorem vote_ok_preserves (sender pid vote : String) (s : ContractState)
    (hInv : Inv s) (h : (execute_vote sender pid vote s).outcome = .ok) :
    Inv (execute_vote sender pid vote s).state := by
  obtain ⟨hnp, hnb, hpi, hbi, hsum⟩ := hInv
  obtain ⟨poll, hpoll, hcase⟩ := execute_vote_ok sender pid vote s h
  rcases hcase with ⟨hball, ip, opts2, hpos, hadj, hst⟩ |
    ⟨b, po, optsD, ip, opts2, hball, hposD, hadjD, hpos, hadj, hst⟩
  · -- no previous ballot: one increment, one appended ballot
    rw [hst]
    have hmf : opts2.map Prod.fst = poll.options.map Prod.fst :=
      adjustAt_map_fst _ _ _ _ hadj
    have hlen2 : opts2.length = poll.options.length := adjustAt_length _ _ _ _ hadj
    have hiplt : ip < poll.options.length := position_lt _ _ _ hpos
    have hipl : (poll.options.getD ip optDflt).1 = vote :=
      eq_of_beq (by simpa using position_getD _ _ _ hpos)
    obtain ⟨c2, hc2, hip2⟩ := adjustAt_getD_eq _ _ _ _ hadj
    have hc2v : c2 = (poll.options.getD ip optDflt).2 + 1 := u64_inc_eq_some _ _ hc2
    have hcfresh : ∀ pidX lblX, ballotCount (save s.ballots (sender, pid) ⟨vote⟩) pidX lblX =
        ballotCount s.ballots pidX lblX +
          (if pid = pidX ∧ vote = lblX then 1 else 0) := by
      intro pidX lblX
      rw [ballotCount_fresh _ _ _ _ _ hball]
    refine ⟨keysNodup_save _ _ _ hnp, keysNodup_save _ _ _ hnb, ?_, ?_, ?_⟩
    · intro pid' poll' hload
      dsimp only at hload
      by_cases hp : pid' = pid
      · rw [hp] at hload ⊢
        rw [mayLoad_save_self, Option.some_inj] at hload
        subst hload
        intro i hi
        dsimp only at hi ⊢
        have hi' : i < poll.options.length := by omega
        rw [getD_fst_eq_of_map_fst _ _ hmf i,
          position_congr opts2 poll.options _ hmf, hcfresh]
        have hOld := hpi pid poll hpoll i hi'
        by_cases hfirst :
            position (fun o => o.1 == (poll.options.getD i optDflt).1) poll.options = some i
        · rw [if_pos hfirst]
          rw [if_pos hfirst] at hOld
          by_cases hlv : (poll.options.getD i optDflt).1 = vote
          · have hipi : ip = i := by
              have hf2 := hfirst
              rw [hlv, hpos] at hf2
              exact Option.some_inj.mp hf2
            rw [← hipi, hip2, if_pos ⟨rfl, hipl.symm⟩]
            rw [← hipi] at hOld
            dsimp only
            omega
          · have hiip : i ≠ ip := fun hw => hlv (hw ▸ hipl)
            rw [adjustAt_getD_ne _ _ _ _ hadj i hiip,
              if_neg (fun hw => hlv hw.2.symm)]
            omega
        · rw [if_neg hfirst]
          rw [if_neg hfirst] at hOld
          have hiip : i ≠ ip := by
            intro hw
            rw [hw] at hfirst
            exact hfirst (by rw [hipl]; exact hpos)
          rw [adjustAt_getD_ne _ _ _ _ hadj i hiip]
          exact hOld
      · rw [mayLoad_save_other _ _ _ _ hp] at hload
        refine PollInv_congr s.ballots _ pid' poll' ?_ (hpi pid' poll' hload)
        intro lbl
        rw [hcfresh, if_neg (fun hw => hp hw.1.symm)]
        omega
    · intro v' pid' b' hload
      dsimp only at hload ⊢
      by_cases hk : (v', pid') = (sender, pid)
      · have hp : pid' = pid := congrArg Prod.snd hk
        rw [hk, mayLoad_save_self, Option.some_inj] at hload
        subst hload
        rw [hp]
        refine ⟨{ poll with options := opts2 }, by rw [mayLoad_save_self], ?_⟩
        dsimp only
        rw [hmf]
        exact mem_fst_of_position _ _ _ hpos
      · rw [mayLoad_save_other _ _ _ _ hk] at hload
        obtain ⟨pollX, hpX, hmem⟩ := hbi v' pid' b' hload
        by_cases hp : pid' = pid
        · rw [hp] at hpX ⊢
          rw [hpoll, Option.some_inj] at hpX
          rw [← hpX] at hmem
          refine ⟨{ poll with options := opts2 }, by rw [mayLoad_save_self], ?_⟩
          dsimp only
          rw [hmf]
          exact hmem
        · exact ⟨pollX, by rw [mayLoad_save_other _ _ _ _ hp]; exact hpX, hmem⟩
    · intro pid' poll' hload
      dsimp only at hload ⊢
      by_cases hp : pid' = pid
      · rw [hp] at hload ⊢
        rw [mayLoad_save_self, Option.some_inj] at hload
        subst hload
        dsimp only
        rw [adjustAt_sum_inc _ _ _ hadj, hsum pid poll hpoll,
          totalBallots_fresh _ _ _ _ hball, if_pos rfl]
      · rw [mayLoad_save_other _ _ _ _ hp] at hload
        rw [totalBallots_fresh _ _ _ _ hball, if_neg (fun hw => hp hw.symm)]
        simpa using hsum pid' poll' hload
  · -- previous ballot: decrement then increment, ballot replaced
    rw [hst]
    have hmfD : optsD.map Prod.fst = poll.options.map Prod.fst :=
      adjustAt_map_fst _ _ _ _ hadjD
    have hmf2 : opts2.map Prod.fst = optsD.map Prod.fst := adjustAt_map_fst _ _ _ _ hadj
    have hmf : opts2.map Prod.fst = poll.options.map Prod.fst := hmf2.trans hmfD
    have hlenD : optsD.length = poll.options.length := adjustAt_length _ _ _ _ hadjD
    have hlen2 : opts2.length = optsD.length := adjustAt_length _ _ _ _ hadj
    have hposP : position (fun o => o.1 == vote) poll.options = some ip := by
      rw [← position_congr optsD poll.options _ hmfD]
      exact hpos
    have hpolt : po < poll.options.length := position_lt _ _ _ hposD
    have hpol : (poll.options.getD po optDflt).1 = b.option :=
      eq_of_beq (by simpa using position_getD _ _ _ hposD)
    have hiplP : (poll.options.getD ip optDflt).1 = vote :=
      eq_of_beq (by simpa using position_getD _ _ _ hposP)
    obtain ⟨cD, hcD, hpoD⟩ := adjustAt_getD_eq _ _ _ _ hadjD
    obtain ⟨hcne, hcDv⟩ := u64_dec_eq_some _ _ hcD
    obtain ⟨c2, hc2, hip2⟩ := adjustAt_getD_eq _ _ _ _ hadj
    have hc2v : c2 = (optsD.getD ip optDflt).2 + 1 := u64_inc_eq_some _ _ hc2
    have hmid : (optsD.getD ip optDflt).2 =
        if ip = po then cD else (poll.options.getD ip optDflt).2 := by
      by_cases hipo : ip = po
      · rw [if_pos hipo, hipo, hpoD]
      · rw [if_neg hipo, adjustAt_getD_ne _ _ _ _ hadjD ip hipo]
    have hcrepl : ∀ pidX lblX,
        ballotCount (save s.ballots (sender, pid) ⟨vote⟩) pidX lblX +
            (if pid = pidX ∧ b.option = lblX then 1 else 0) =
          ballotCount s.ballots pidX lblX +
            (if pid = pidX ∧ vote = lblX then 1 else 0) := by
      intro pidX lblX
      have := ballotCount_replace s.ballots (sender, pid) b ⟨vote⟩ pidX lblX hball
      exact this
    -- net effect on entry i of the option list
    have hval : ∀ i, i < poll.options.length →
        (opts2.getD i optDflt).2 + (if i = po then 1 else 0) =
          (poll.options.getD i optDflt).2 + (if i = ip then 1 else 0) := by
      intro i hi
      by_cases hiip : i = ip
      · rw [hiip, hip2, if_pos rfl]
        dsimp only
        by_cases hipo : ip = po
        · rw [if_pos hipo]
          rw [if_pos hipo] at hmid
          rw [hipo]
          omega
        · rw [if_neg hipo]
          rw [if_neg hipo] at hmid
          omega
      · rw [if_neg hiip, adjustAt_getD_ne _ _ _ _ hadj i hiip]
        by_cases hipo : i = po
        · rw [hipo, hpoD, if_pos rfl]
          dsimp only
          omega
        · rw [if_neg hipo, adjustAt_getD_ne _ _ _ _ hadjD i hipo]
    refine ⟨keysNodup_save _ _ _ hnp, keysNodup_save _ _ _ hnb, ?_, ?_, ?_⟩
    · intro pid' poll' hload
      dsimp only at hload
      by_cases hp : pid' = pid
      · rw [hp] at hload ⊢
        rw [mayLoad_save_self, Option.some_inj] at hload
        subst hload
        intro i hi
        dsimp only at hi ⊢
        have hi' : i < poll.options.length := by omega
        rw [getD_fst_eq_of_map_fst _ _ hmf i,
          position_congr opts2 poll.options _ hmf]
        have hOld := hpi pid poll hpoll i hi'
        have hrepl := hcrepl pid (poll.options.getD i optDflt).1
        have hv := hval i hi'
        by_cases hfirst :
            position (fun o => o.1 == (poll.options.getD i optDflt).1) poll.options = some i
        · rw [if_pos hfirst]
          rw [if_pos hfirst] at hOld
          by_cases hlv : (poll.options.getD i optDflt).1 = vote
          · have hiip : i = ip := by
              have hf2 := hfirst
              rw [hlv, hposP] at hf2
              exact (Option.some_inj.mp hf2).symm
            by_cases hlb : (poll.options.getD i optDflt).1 = b.option
            · have hipo : i = po := by
                have hf2 := hfirst
                rw [hlb, hposD] at hf2
                exact (Option.some_inj.mp hf2).symm
              rw [if_pos ⟨rfl, hlb.symm⟩, if_pos ⟨rfl, hlv.symm⟩] at hrepl
              rw [if_pos hipo, if_pos hiip] at hv
              omega
            · have hipo : i ≠ po := fun hw => hlb (hw ▸ hpol)
              rw [if_neg (fun hw => hlb hw.2.symm),
                if_pos ⟨rfl, hlv.symm⟩] at hrepl
              rw [if_neg hipo, if_pos hiip] at hv
              omega
          · have hiip : i ≠ ip := fun hw => hlv (hw ▸ hiplP)
            by_cases hlb : (poll.options.getD i optDflt).1 = b.option
            · have hipo : i = po := by
                have hf2 := hfirst
                rw [hlb, hposD] at hf2
                exact (Option.some_inj.mp hf2).symm
              rw [if_pos ⟨rfl, hlb.symm⟩,
                if_neg (fun hw => hlv hw.2.symm)] at hrepl
              rw [if_pos hipo, if_neg hiip] at hv
              omega
            · have hipo : i ≠ po := fun hw => hlb (hw ▸ hpol)
              rw [if_neg (fun hw => hlb hw.2.symm),
                if_neg (fun hw => hlv hw.2.symm)] at hrepl
              rw [if_neg hipo, if_neg hiip] at hv
              omega
        · rw [if_neg hfirst]
          rw [if_neg hfirst] at hOld
          have hiip : i ≠ ip := by
            intro hw
            rw [hw] at hfirst
            exact hfirst (by rw [hiplP]; exact hposP)
          have hipo : i ≠ po := by
            intro hw
            rw [hw] at hfirst
            exact hfirst (by rw [hpol]; exact hposD)
          rw [if_neg hipo, if_neg hiip] at hv
          omega
      · rw [mayLoad_save_other _ _ _ _ hp] at hload
        refine PollInv_congr s.ballots (save s.ballots (sender, pid) ⟨vote⟩) pid' poll'
          ?_ (hpi pid' poll' hload)
        intro lbl
        have hrepl := hcrepl pid' lbl
        rw [if_neg (fun hw => hp hw.1.symm), if_neg (fun hw => hp hw.1.symm)] at hrepl
        omega
    · intro v' pid' b' hload
      dsimp only at hload ⊢
      by_cases hk : (v', pid') = (sender, pid)
      · have hp : pid' = pid := congrArg Prod.snd hk
        rw [hk, mayLoad_save_self, Option.some_inj] at hload
        subst hload
        rw [hp]
        refine ⟨{ poll with options := opts2 }, by rw [mayLoad_save_self], ?_⟩
        dsimp only
        rw [hmf]
        exact mem_fst_of_position _ _ _ hposP
      · rw [mayLoad_save_other _ _ _ _ hk] at hload
        obtain ⟨pollX, hpX, hmem⟩ := hbi v' pid' b' hload
        by_cases hp : pid' = pid
        · rw [hp] at hpX ⊢
          rw [hpoll, Option.some_inj] at hpX
          rw [← hpX] at hmem
          refine ⟨{ poll with options := opts2 }, by rw [mayLoad_save_self], ?_⟩
          dsimp only
          rw [hmf]
          exact hmem
        · exact ⟨pollX, by rw [mayLoad_save_other _ _ _ _ hp]; exact hpX, hmem⟩
    · intro pid' poll' hload
      dsimp only at hload ⊢
      rw [totalBallots_replace _ _ _ _ _ hball]
      by_cases hp : pid' = pid
      · rw [hp] at hload ⊢
        rw [mayLoad_save_self, Option.some_inj] at hload
        subst hload
        dsimp only
        have h1 := adjustAt_sum_inc _ _ _ hadj
        have h2 := adjustAt_sum_dec _ _ _ hadjD
        have h3 := hsum pid poll hpoll
        omega
      · rw [mayLoad_save_other _ _ _ _ hp] at hload
        exact hsum pid' poll' hload

theorem goodRun_inv (validate : String → Option String) (as : List Action)
    (s : ContractState) (hInv : Inv s) (hg : goodRun validate s as = true) :
    Inv (run validate s as) := by
  induction as generalizing s with
  | nil => exact hInv
  | cons a rest ih =>
    simp only [goodRun, Bool.and_eq_true] at hg
    obtain ⟨⟨hfresh, hvote⟩, hrest⟩ := hg
    have hstep : Inv (step validate a s).state := by
      cases a with
      | init sender admin => exact instantiate_preserves validate sender admin s hInv
      | createPoll sender pid q opts =>
        have hnone : mayLoad s.polls pid = none := by
          simpa [freshCreate, Option.isNone_iff_eq_none] using hfresh
        exact create_preserves sender pid q opts s hInv hnone
      | vote sender pid v =>
        have hok : (execute_vote sender pid v s).outcome = .ok := by
          simpa [voteSucceeds] using hvote
        exact vote_ok_preserves sender pid v s hInv hok
    simpa [run] using ih (step validate a s).state hstep hrest

theorem getD_mem (l : List (String × Nat)) (j : Nat) (hj : j < l.length) :
    l.getD j optDflt ∈ l := by
  induction l generalizing j with
  | nil => simp at hj
  | cons o rest ih =>
    match j with
    | 0 => simp
    | j' + 1 =>
      simp only [List.getD_cons_succ, List.mem_cons]
      exact Or.inr (ih j' (by simpa using hj))

theorem mem_getD (l : List (String × Nat)) (x : String × Nat) (h : x ∈ l) :
    ∃ i, i < l.length ∧ l.getD i optDflt = x := by
  induction l with
  | nil => simp at h
  | cons o rest ih =>
    rcases List.mem_cons.mp h with h0 | h0
    · exact ⟨0, by simp, by simp [h0.symm]⟩
    · obtain ⟨i, hi, hx⟩ := ih h0
      exact ⟨i + 1, by simpa using hi, by simpa using hx⟩

theorem nodup_fst_getD_ne (l : List (String × Nat))
    (hnd : (l.map Prod.fst).Nodup) (i j : Nat) (hi : i < l.length)
    (hj : j < l.length) (hne : i ≠ j) :
    (l.getD i optDflt).1 ≠ (l.getD j optDflt).1 := by
  induction l generalizing i j with
  | nil => simp at hi
  | cons o rest ih =>
    simp only [List.map_cons, List.nodup_cons] at hnd
    match i, j with
    | 0, 0 => omega
    | 0, j' + 1 =>
      simp only [List.getD_cons_zero, List.getD_cons_succ]
      intro hw
      exact hnd.1 (hw ▸ List.mem_map_of_mem Prod.fst (getD_mem rest j' (by simpa using hj)))
    | i' + 1, 0 =>
      simp only [List.getD_cons_zero, List.getD_cons_succ]
      intro hw
      exact hnd.1 (hw ▸ List.mem_map_of_mem Prod.fst (getD_mem rest i' (by simpa using hi)))
    | i' + 1, j' + 1 =>
      simp only [List.getD_cons_succ]
      exact ih hnd.2 i' j' (by simpa using hi) (by simpa using hj) (by omega)

theorem position_of_nodup (l : List (String × Nat)) (hnd : (l.map Prod.fst).Nodup)
    (i : Nat) (hi : i < l.length) :
    position (fun o => o.1 == (l.getD i optDflt).1) l = some i := by
  apply position_rev _ _ _ hi (by simp)
  intro j hj
  have := nodup_fst_getD_ne l hnd j i (by omega) hi (by omega)
  simpa using this

theorem execute_vote_polls_unchanged (sender pid vote : String) (s : ContractState)
    (h : (execute_vote sender pid vote s).outcome ≠ .ok) :
    (execute_vote sender pid vote s).state.polls = s.polls := by
  cases hpoll : mayLoad s.polls pid with
  | none => rw [execute_vote_no_poll _ _ _ _ hpoll]
  | some poll =>
    cases hball : mayLoad s.ballots (sender, pid) with
    | none =>
      rw [execute_vote_no_ballot _ _ _ _ _ hpoll hball] at h ⊢
      cases hpos : position (fun o => o.1 == vote) poll.options with
      | none => rw [voteFinish_not_found _ _ _ _ hpos]
      | some ip =>
        cases hadj : adjustAt u64_inc poll.options ip with
        | none => rw [voteFinish_inc_panic _ _ _ _ _ hpos hadj]
        | some opts2 =>
          exact absurd (by rw [voteFinish_inc _ _ _ _ _ _ hpos hadj]) h
    | some b =>
      cases hpos : position (fun o => o.1 == b.option) poll.options with
      | none => rw [execute_vote_unwrap_panic _ _ _ _ _ _ hpoll hball hpos]
      | some po =>
        cases hadj : adjustAt u64_dec poll.options po with
        | none => rw [execute_vote_dec_panic _ _ _ _ _ _ _ hpoll hball hpos hadj]
        | some optsD =>
          rw [execute_vote_prev_ballot _ _ _ _ _ _ _ _ hpoll hball hpos hadj] at h ⊢
          cases hpos2 : position (fun o => o.1 == vote) optsD with
          | none =>
            rw [voteFinish_not_found _ _ _ _ (by simpa using hpos2)]
          | some ip =>
            cases hadj2 : adjustAt u64_inc optsD ip with
            | none =>
              rw [voteFinish_inc_panic _ _ _ _ ip (by simpa using hpos2)
                (by simpa using hadj2)]
            | some opts2 =>
              exact absurd (by rw [voteFinish_inc _ _ _ _ ip opts2 (by simpa using hpos2)
                (by simpa using hadj2)]) h

/-! ### Claim theorems -/

/-- C6: `CreatePoll` fails with `TooManyOptions` exactly when the supplied
option list has strictly more than 10 entries, mutating no state in that
case; with 10 or fewer entries it succeeds and persists the poll with every
option's count initialized to 0, in the supplied order. -/
theorem c6_create_poll_bounds (sender pid q : String) (opts : List String)
    (s : ContractState) :
    (opts.length > 10 →
      execute_create_poll sender pid q opts s = ⟨.err .tooManyOptions, s⟩) ∧
    (opts.length ≤ 10 →
      execute_create_poll sender pid q opts s =
        ⟨.ok, { s with polls := save s.polls pid (Poll.mk sender q (opts.map fun o => (o, 0))) }⟩) := by
  constructor
  · intro hlen
    unfold execute_create_poll
    rw [if_pos hlen]
  · intro hlen
    unfold execute_create_poll
    rw [if_neg (by omega)]

theorem c6_create_poll_bounds_witness :
    execute_create_poll "c" "p" "q"
        ["1", "2", "3", "4", "5", "6", "7", "8", "9", "10", "11"] initState =
      ⟨.err .tooManyOptions, initState⟩ ∧
    execute_create_poll "c" "p" "q"
        ["1", "2", "3", "4", "5", "6", "7", "8", "9", "10"] initState =
      ⟨.ok, { initState with polls := save initState.polls "p" (Poll.mk "c" "q" (["1", "2", "3", "4", "5", "6", "7", "8", "9", "10"].map fun o => (o, 0))) }⟩ :=
  ⟨(c6_create_poll_bounds "c" "p" "q" _ initState).1 (by decide),
   (c6_create_poll_bounds "c" "p" "q" _ initState).2 (by decide)⟩

/-- C7: `Vote` on a poll id with no stored poll fails with `PollNotFound`
and the state is exactly the pre-call state: no ballot is written for any
(voter, poll id) pair and no poll record is written. -/
theorem c7_unknown_poll (sender pid vote : String) (s : ContractState)
    (h : mayLoad s.polls pid = none) :
    execute_vote sender pid vote s = ⟨.err .pollNotFound, s⟩ :=
  execute_vote_no_poll sender pid vote s h

theorem c7_unknown_poll_witness :
    execute_vote "v" "p" "A" initState = ⟨.err .pollNotFound, initState⟩ :=
  c7_unknown_poll "v" "p" "A" initState (by decide)

/-- C8: on successful instantiation the stored `Config.admin` is the
validated admin string from the message when one is given, and the
validated sender identifier when the admin field is omitted. -/
theorem c8_instantiate_admin (validate : String → Option String) (sender : String)
    (s : ContractState) :
    (∀ a va, validate a = some va →
      instantiate validate sender (some a) s =
        ⟨.ok, { s with config := some ⟨va⟩ }⟩) ∧
    (∀ va, validate sender = some va →
      instantiate validate sender none s =
        ⟨.ok, { s with config := some ⟨va⟩ }⟩) := by
  constructor
  · intro a va hv
    unfold instantiate
    simp only [Option.getD_some, hv]
  · intro va hv
    unfold instantiate
    simp only [Option.getD_none, hv]

theorem c8_instantiate_admin_witness :
    instantiate validate0 "addr1" (some "addr2") initState =
      ⟨.ok, { initState with config := some ⟨"addr2"⟩ }⟩ ∧
    instantiate validate0 "addr1" none initState =
      ⟨.ok, { initState with config := some ⟨"addr1"⟩ }⟩ :=
  ⟨(c8_instantiate_admin validate0 "addr1" initState).1 "addr2" "addr2" rfl,
   (c8_instantiate_admin validate0 "addr1" initState).2 "addr1" rfl⟩

/-- C9: re-creating an existing poll resets its tallies to 0 while the
ballots survive, so the sequence CreatePoll p; Vote A; CreatePoll p again;
Vote (any option) reaches the step-3 decrement on a u64 tally that is 0:
`0 - 1` leaves the u64 range (`u64_dec 0 = none`) instead of keeping the
count non-negative, and the call aborts. -/
theorem c9_recreate_underflow :
    (execute_vote "v" "p" "A"
        (run validate0 initState [Action.createPoll "c" "p" "q" ["A", "B"]])).outcome =
      Outcome.ok ∧
    mayLoad (run validate0 initState
        [Action.createPoll "c" "p" "q" ["A", "B"], Action.vote "v" "p" "A",
          Action.createPoll "c" "p" "q" ["A", "B"]]).polls "p" =
      some ⟨"c", "q", [("A", 0), ("B", 0)]⟩ ∧
    mayLoad (run validate0 initState
        [Action.createPoll "c" "p" "q" ["A", "B"], Action.vote "v" "p" "A",
          Action.createPoll "c" "p" "q" ["A", "B"]]).ballots ("v", "p") =
      some ⟨"A"⟩ ∧
    u64_dec 0 = none ∧
    (execute_vote "v" "p" "B"
        (run validate0 initState
          [Action.createPoll "c" "p" "q" ["A", "B"], Action.vote "v" "p" "A",
            Action.createPoll "c" "p" "q" ["A", "B"]])).outcome = Outcome.panicked := by
  decide

/-- C1 counterexample: after CreatePoll "p" ["A"]; Vote "A" (which
succeeds); CreatePoll "p" ["A"] again — a sequence in which every Vote
call succeeded — the stored tally of "A" is 0 while one ballot on "p"
selects "A" and one distinct voter holds a ballot on "p", so neither the
per-option equality nor the sum equality of the claim holds. -/
theorem c1_recreate_counterexample :
    (execute_vote "v" "p" "A"
        (run validate0 initState [Action.createPoll "c" "p" "q" ["A"]])).outcome =
      Outcome.ok ∧
    mayLoad (run validate0 initState
        [Action.createPoll "c" "p" "q" ["A"], Action.vote "v" "p" "A",
          Action.createPoll "c" "p" "q" ["A"]]).polls "p" =
      some ⟨"c", "q", [("A", 0)]⟩ ∧
    ballotCount (run validate0 initState
        [Action.createPoll "c" "p" "q" ["A"], Action.vote "v" "p" "A",
          Action.createPoll "c" "p" "q" ["A"]]).ballots "p" "A" = 1 ∧
    totalBallots (run validate0 initState
        [Action.createPoll "c" "p" "q" ["A"], Action.vote "v" "p" "A",
          Action.createPoll "c" "p" "q" ["A"]]).ballots "p" = 1 ∧
    tallySum [("A", (0 : Nat))] = 0 := by
  decide

/-- C1 (amended): after any call sequence from the initial state in which
every Vote succeeded and every CreatePoll used a fresh poll id, every
stored poll has the sum of its tallies equal to the number of ballots
(one per distinct voter) on it — no label distinctness needed — and, when
its option labels are pairwise distinct, each option's count equals the
number of ballots on that poll selecting that label. -/
theorem c1_tally_invariant (validate : String → Option String) (as : List Action)
    (pid : String) (poll : Poll)
    (hg : goodRun validate initState as = true)
    (hpoll : mayLoad (run validate initState as).polls pid = some poll) :
    ((poll.options.map Prod.fst).Nodup →
      ∀ lc ∈ poll.options,
        lc.2 = ballotCount (run validate initState as).ballots pid lc.1) ∧
    tallySum poll.options = totalBallots (run validate initState as).ballots pid := by
  obtain ⟨hnp, hnb, hpi, hbi, hsum⟩ := goodRun_inv validate as initState Inv_initState hg
  refine ⟨?_, hsum pid poll hpoll⟩
  intro hnd lc hmem
  obtain ⟨i, hi, hget⟩ := mem_getD poll.options lc hmem
  have hPI := hpi pid poll hpoll i hi
  rw [position_of_nodup poll.options hnd i hi, if_pos rfl] at hPI
  rw [← hget]
  exact hPI

theorem c1_tally_invariant_witness :
    (∀ lc ∈ ([("A", 1), ("B", 0)] : List (String × Nat)),
      lc.2 = ballotCount (run validate0 initState
        [Action.createPoll "c" "p" "q" ["A", "B"],
          Action.vote "v" "p" "A"]).ballots "p" lc.1) ∧
    tallySum [("A", 1), ("B", 0)] =
      totalBallots (run validate0 initState
        [Action.createPoll "c" "p" "q" ["A", "B"],
          Action.vote "v" "p" "A"]).ballots "p" :=
  ⟨(c1_tally_invariant validate0
      [Action.createPoll "c" "p" "q" ["A", "B"], Action.vote "v" "p" "A"] "p"
      ⟨"c", "q", [("A", 1), ("B", 0)]⟩ (by decide) (by decide)).1 (by decide),
   (c1_tally_invariant validate0
      [Action.createPoll "c" "p" "q" ["A", "B"], Action.vote "v" "p" "A"] "p"
      ⟨"c", "q", [("A", 1), ("B", 0)]⟩ (by decide) (by decide)).2⟩

/-- C2 counterexample: the sequence CreatePoll "p" ["A"]; Vote "Z" (which
fails with OptionNotFound) reaches a state whose stored ballot selects
"Z", a label absent from the poll's option list, and the next Vote by the
same voter panics at the unwrap of step 3 instead of proceeding. -/
theorem c2_failed_vote_counterexample :
    mayLoad (run validate0 initState
        [Action.createPoll "c" "p" "q" ["A"], Action.vote "v" "p" "Z"]).ballots
        ("v", "p") = some ⟨"Z"⟩ ∧
    mayLoad (run validate0 initState
        [Action.createPoll "c" "p" "q" ["A"], Action.vote "v" "p" "Z"]).polls "p" =
      some ⟨"c", "q", [("A", 0)]⟩ ∧
    ("Z" : String) ∉ ([("A", (0 : Nat))].map Prod.fst) ∧
    position (fun o => o.1 == "Z") [("A", (0 : Nat))] = none ∧
    (execute_vote "v" "p" "A"
        (run validate0 initState
          [Action.createPoll "c" "p" "q" ["A"], Action.vote "v" "p" "Z"])).outcome =
      Outcome.panicked := by
  decide

/-- C2 (amended): in every state reachable from the initial state by a
sequence in which every Vote succeeded and every CreatePoll used a fresh
poll id, every stored ballot's option label names an option present in
its poll's option list, so the step-3 linear search for the previous
ballot's label finds a position and the following unwrap cannot panic. -/
theorem c2_ballot_option_valid (validate : String → Option String) (as : List Action)
    (v pid : String) (b : Ballot)
    (hg : goodRun validate initState as = true)
    (hb : mayLoad (run validate initState as).ballots (v, pid) = some b) :
    ∃ poll, mayLoad (run validate initState as).polls pid = some poll ∧
      b.option ∈ poll.options.map Prod.fst ∧
      position (fun o => o.1 == b.option) poll.options ≠ none := by
  obtain ⟨hnp, hnb, hpi, hbi, hsum⟩ := goodRun_inv validate as initState Inv_initState hg
  obtain ⟨poll, h1, h2⟩ := hbi v pid b hb
  refine ⟨poll, h1, h2, ?_⟩
  obtain ⟨i, hi⟩ := position_isSome_of_mem _ _ h2
  rw [hi]
  simp

theorem c2_ballot_option_valid_witness :
    ∃ poll, mayLoad (run validate0 initState
        [Action.createPoll "c" "p" "q" ["A", "B"],
          Action.vote "v" "p" "A"]).polls "p" = some poll ∧
      (Ballot.mk "A").option ∈ poll.options.map Prod.fst ∧
      position (fun o => o.1 == (Ballot.mk "A").option) poll.options ≠ none :=
  c2_ballot_option_valid validate0
    [Action.createPoll "c" "p" "q" ["A", "B"], Action.vote "v" "p" "A"]
    "v" "p" ⟨"A"⟩ (by decide) (by decide)

/-- C3 counterexample: from the reachable state left by CreatePoll "p"
["A"]; Vote "Z" (failed), the ballot reads "Z"; a Vote for "W" — an
existing poll, an option label absent from the list — does not fail with
OptionNotFound: it panics at the step-3 unwrap, and the voter's ballot is
not overwritten with the requested label. -/
theorem c3_stale_ballot_counterexample :
    mayLoad (run validate0 initState
        [Action.createPoll "c" "p" "q" ["A"], Action.vote "v" "p" "Z"]).polls "p" =
      some ⟨"c", "q", [("A", 0)]⟩ ∧
    ("W" : String) ∉ ([("A", (0 : Nat))].map Prod.fst) ∧
    (execute_vote "v" "p" "W"
        (run validate0 initState
          [Action.createPoll "c" "p" "q" ["A"], Action.vote "v" "p" "Z"])).outcome =
      Outcome.panicked ∧
    mayLoad (execute_vote "v" "p" "W"
        (run validate0 initState
          [Action.createPoll "c" "p" "q" ["A"], Action.vote "v" "p" "Z"])).state.ballots
        ("v", "p") = some ⟨"Z"⟩ := by
  decide

/-- C3 (amended): when Vote names an existing poll and an option label
absent from its option list, and the voter's previous ballot (if any)
names an option present in the list whose tally is nonzero, the call
fails with OptionNotFound while the ballot has already been overwritten
with the requested invalid label and the poll record is left exactly as
it was (the in-memory decrement of the old option is discarded). -/
theorem c3_unknown_option (sender pid vote : String) (s : ContractState) (poll : Poll)
    (hpoll : mayLoad s.polls pid = some poll)
    (hvote : position (fun o => o.1 == vote) poll.options = none)
    (hprev : mayLoad s.ballots (sender, pid) = none ∨
      ∃ b po, mayLoad s.ballots (sender, pid) = some b ∧
        position (fun o => o.1 == b.option) poll.options = some po ∧
        (poll.options.getD po optDflt).2 ≠ 0) :
    execute_vote sender pid vote s =
      ⟨.err .optionNotFound,
        { s with ballots := save s.ballots (sender, pid) ⟨vote⟩ }⟩ := by
  rcases hprev with hnone | ⟨b, po, hb, hpo, hc⟩
  · rw [execute_vote_no_ballot _ _ _ _ _ hpoll hnone,
      voteFinish_not_found _ _ _ _ hvote]
  · obtain ⟨r, hr⟩ := adjustAt_of_some u64_dec poll.options po
      ((poll.options.getD po optDflt).2 - 1) (position_lt _ _ _ hpo)
      (by unfold u64_dec; rw [if_neg hc])
    rw [execute_vote_prev_ballot _ _ _ _ _ _ _ _ hpoll hb hpo hr]
    rw [voteFinish_not_found]
    rw [show Poll.options { poll with options := r } = r from rfl,
      position_congr r poll.options _ (adjustAt_map_fst _ _ _ _ hr)]
    exact hvote

theorem c3_unknown_option_witness :
    execute_vote "v" "p" "W"
        (ContractState.mk none [("p", ⟨"c", "q", [("A", 1)]⟩)] [(("v", "p"), ⟨"A"⟩)]) =
      ⟨.err .optionNotFound,
        { ContractState.mk none [("p", ⟨"c", "q", [("A", 1)]⟩)] [(("v", "p"), ⟨"A"⟩)] with
          ballots := save [(("v", "p"), ⟨"A"⟩)] ("v", "p") ⟨"W"⟩ }⟩ :=
  c3_unknown_option "v" "p" "W"
    (ContractState.mk none [("p", ⟨"c", "q", [("A", 1)]⟩)] [(("v", "p"), ⟨"A"⟩)])
    ⟨"c", "q", [("A", 1)]⟩ (by decide) (by decide)
    (Or.inr ⟨⟨"A"⟩, 0, by decide, by decide, by decide⟩)

/-- Effect of one successful vote for `B` by a voter whose current ballot
selects the option at index `ia`, with `B` at a different index `ib`. -/
theorem vote_change_step (sender pid B : String) (s1 : ContractState) (pollM : Poll)
    (bA : Ballot) (ia ib : Nat)
    (hpoll1 : mayLoad s1.polls pid = some pollM)
    (hball1 : mayLoad s1.ballots (sender, pid) = some bA)
    (hia : position (fun o => o.1 == bA.option) pollM.options = some ia)
    (hib : position (fun o => o.1 == B) pollM.options = some ib)
    (hne : ia ≠ ib)
    (hok : (execute_vote sender pid B s1).outcome = .ok) :
    ∃ poll2, mayLoad (execute_vote sender pid B s1).state.polls pid = some poll2 ∧
      (poll2.options.getD ia optDflt).2 + 1 = (pollM.options.getD ia optDflt).2 ∧
      (poll2.options.getD ib optDflt).2 = (pollM.options.getD ib optDflt).2 + 1 ∧
      (∀ j, j ≠ ia → j ≠ ib →
        poll2.options.getD j optDflt = pollM.options.getD j optDflt) ∧
      mayLoad (execute_vote sender pid B s1).state.ballots (sender, pid) =
        some ⟨B⟩ := by
  obtain ⟨pollY, hpY, hcase⟩ := execute_vote_ok sender pid B s1 hok
  rw [hpoll1, Option.some_inj] at hpY
  rcases hcase with ⟨hnone, _⟩ | ⟨b2, po2, optsD2, ip2, opts2, hb2, hpo2, hdec2, hip2, hinc2, hst2⟩
  · rw [hball1] at hnone
    cases hnone
  · rw [hball1, Option.some_inj] at hb2
    rw [← hb2] at hpo2
    rw [← hpY] at hpo2 hdec2 hst2
    have hpoia : po2 = ia := by
      rw [hpo2] at hia
      exact Option.some_inj.mp hia
    rw [hpoia] at hdec2
    have hmfD2 : optsD2.map Prod.fst = pollM.options.map Prod.fst :=
      adjustAt_map_fst _ _ _ _ hdec2
    have hipib : ip2 = ib := by
      have htr := hip2
      rw [position_congr optsD2 pollM.options _ hmfD2, hib] at htr
      exact (Option.some_inj.mp htr).symm
    rw [hipib] at hinc2
    obtain ⟨cD, hcD, hiaD⟩ := adjustAt_getD_eq _ _ _ _ hdec2
    obtain ⟨hcne, hcDv⟩ := u64_dec_eq_some _ _ hcD
    obtain ⟨c2, hc2, hibD⟩ := adjustAt_getD_eq _ _ _ _ hinc2
    have hc2v : c2 = (optsD2.getD ib optDflt).2 + 1 := u64_inc_eq_some _ _ hc2
    refine ⟨{ pollM with options := opts2 }, ?_, ?_, ?_, ?_, ?_⟩
    · rw [hst2]
      dsimp only
      rw [mayLoad_save_self]
    · dsimp only
      rw [adjustAt_getD_ne _ _ _ _ hinc2 ia hne, hiaD]
      dsimp only
      omega
    · dsimp only
      rw [hibD, adjustAt_getD_ne _ _ _ _ hdec2 ib (fun hw => hne hw.symm)]
      dsimp only
      rw [adjustAt_getD_ne _ _ _ _ hdec2 ib (fun hw => hne hw.symm)] at hc2v
      omega
    · intro j hja hjb
      dsimp only
      rw [adjustAt_getD_ne _ _ _ _ hinc2 j hjb,
        adjustAt_getD_ne _ _ _ _ hdec2 j hja]
    · rw [hst2]
      dsimp only
      rw [mayLoad_save_self]

/-- C4: if the voter's current ballot on the poll already selects the
(valid) requested option, a successful Vote for that same option leaves
the whole state unchanged: every tally and the ballot are as before. -/
theorem c4_idempotent_revote (sender pid vote : String) (s : ContractState) (poll : Poll)
    (hpoll : mayLoad s.polls pid = some poll)
    (hball : mayLoad s.ballots (sender, pid) = some ⟨vote⟩)
    (hvalid : vote ∈ poll.options.map Prod.fst)
    (hok : (execute_vote sender pid vote s).outcome = .ok) :
    (execute_vote sender pid vote s).state = s := by
  obtain ⟨poll', hpoll', hcase⟩ := execute_vote_ok sender pid vote s hok
  rw [hpoll, Option.some_inj] at hpoll'
  rcases hcase with ⟨hnone, _⟩ | ⟨b, po, optsD, ip, opts2, hb, hpo, hdec, hip, hinc, hst⟩
  · rw [hball] at hnone
    cases hnone
  · rw [hball, Option.some_inj] at hb
    rw [← hb] at hpo
    dsimp only at hpo
    have hipo : po = ip := by
      have htr := hip
      rw [position_congr optsD poll'.options _ (adjustAt_map_fst _ _ _ _ hdec)] at htr
      rw [hpo] at htr
      exact Option.some_inj.mp htr
    rw [← hipo] at hinc
    have hround : opts2 = poll'.options :=
      adjustAt_dec_inc poll'.options po optsD opts2 hdec hinc
    rw [hst, hround, ← hpoll']
    rw [show { poll with options := poll.options } = poll from rfl]
    rw [save_self s.polls pid poll hpoll,
      save_self s.ballots (sender, pid) ⟨vote⟩ hball]

theorem c4_idempotent_revote_witness :
    (execute_vote "v" "p" "A"
        (ContractState.mk none [("p", ⟨"c", "q", [("A", 1), ("B", 0)]⟩)]
          [(("v", "p"), ⟨"A"⟩)])).state =
      ContractState.mk none [("p", ⟨"c", "q", [("A", 1), ("B", 0)]⟩)]
        [(("v", "p"), ⟨"A"⟩)] :=
  c4_idempotent_revote "v" "p" "A"
    (ContractState.mk none [("p", ⟨"c", "q", [("A", 1), ("B", 0)]⟩)]
      [(("v", "p"), ⟨"A"⟩)])
    ⟨"c", "q", [("A", 1), ("B", 0)]⟩ (by decide) (by decide) (by decide) (by decide)

/-- C5 counterexample: on poll "p" with options A,B and tallies A=0,B=1,
a voter whose current ballot selects B votes A then B, both successfully;
the final tally of B is 1 — not "one more than before either vote" (2) as
the claim requires, because the first vote decremented B. -/
theorem c5_prior_ballot_counterexample :
    (execute_vote "v" "p" "A"
        (run validate0 initState
          [Action.createPoll "c" "p" "q" ["A", "B"], Action.vote "v" "p" "B"])).outcome =
      Outcome.ok ∧
    (execute_vote "v" "p" "B"
        (execute_vote "v" "p" "A"
          (run validate0 initState
            [Action.createPoll "c" "p" "q" ["A", "B"],
              Action.vote "v" "p" "B"])).state).outcome = Outcome.ok ∧
    mayLoad (run validate0 initState
        [Action.createPoll "c" "p" "q" ["A", "B"], Action.vote "v" "p" "B"]).polls "p" =
      some ⟨"c", "q", [("A", 0), ("B", 1)]⟩ ∧
    mayLoad (execute_vote "v" "p" "B"
        (execute_vote "v" "p" "A"
          (run validate0 initState
            [Action.createPoll "c" "p" "q" ["A", "B"],
              Action.vote "v" "p" "B"])).state).state.polls "p" =
      some ⟨"c", "q", [("A", 0), ("B", 1)]⟩ ∧
    ¬ mayLoad (execute_vote "v" "p" "B"
        (execute_vote "v" "p" "A"
          (run validate0 initState
            [Action.createPoll "c" "p" "q" ["A", "B"],
              Action.vote "v" "p" "B"])).state).state.polls "p" =
      some ⟨"c", "q", [("A", 0), ("B", 2)]⟩ := by
  decide

/-- C5 (amended): for a voter whose prior ballot on the poll is absent or
already selects A, after successfully voting A then B (A and B distinct
valid options at positions ia and ib), A's tally is one less than it was
after the first vote, B's tally is one more than before either vote,
every other entry is unchanged, and the ballot records B. -/
theorem c5_vote_change (sender pid A B : String) (s : ContractState) (poll : Poll)
    (ia ib : Nat)
    (hpoll : mayLoad s.polls pid = some poll)
    (hAB : A ≠ B)
    (hia : position (fun o => o.1 == A) poll.options = some ia)
    (hib : position (fun o => o.1 == B) poll.options = some ib)
    (hprev : mayLoad s.ballots (sender, pid) = none ∨
      mayLoad s.ballots (sender, pid) = some ⟨A⟩)
    (hok1 : (execute_vote sender pid A s).outcome = .ok)
    (hok2 : (execute_vote sender pid B (execute_vote sender pid A s).state).outcome = .ok) :
    ∃ poll1 poll2,
      mayLoad (execute_vote sender pid A s).state.polls pid = some poll1 ∧
      mayLoad (execute_vote sender pid B
        (execute_vote sender pid A s).state).state.polls pid = some poll2 ∧
      (poll2.options.getD ia optDflt).2 + 1 = (poll1.options.getD ia optDflt).2 ∧
      (poll2.options.getD ib optDflt).2 = (poll.options.getD ib optDflt).2 + 1 ∧
      (∀ j, j ≠ ia → j ≠ ib →
        poll2.options.getD j optDflt = poll.options.getD j optDflt) ∧
      mayLoad (execute_vote sender pid B
        (execute_vote sender pid A s).state).state.ballots (sender, pid) =
        some ⟨B⟩ := by
  have hlA : (poll.options.getD ia optDflt).1 = A :=
    eq_of_beq (by simpa using position_getD _ _ _ hia)
  have hlB : (poll.options.getD ib optDflt).1 = B :=
    eq_of_beq (by simpa using position_getD _ _ _ hib)
  have hne : ia ≠ ib := fun hw => hAB (by rw [← hlA, hw, hlB])
  obtain ⟨pollX, hpX, hcase1⟩ := execute_vote_ok sender pid A s hok1
  rw [hpoll, Option.some_inj] at hpX
  rcases hcase1 with ⟨hnone, ipA, optsA, hposA, hadjA, hst1⟩ |
    ⟨bA, poA, optsDA, ipA, optsA, hbA, hpoA, hdecA, hipA, hincA, hst1⟩
  · rw [← hpX] at hposA hadjA hst1
    have hipa : ipA = ia := by
      rw [hposA] at hia
      exact Option.some_inj.mp hia
    rw [hipa] at hadjA
    have hmfA : optsA.map Prod.fst = poll.options.map Prod.fst :=
      adjustAt_map_fst _ _ _ _ hadjA
    have hAj : ∀ j, j ≠ ia → optsA.getD j optDflt = poll.options.getD j optDflt :=
      fun j hj => adjustAt_getD_ne _ _ _ _ hadjA j hj
    have hp1 : mayLoad (execute_vote sender pid A s).state.polls pid =
        some (Poll.mk poll.creator poll.question optsA) := by
      rw [hst1]
      dsimp only
      rw [mayLoad_save_self]
    have hb1 : mayLoad (execute_vote sender pid A s).state.ballots (sender, pid) =
        some ⟨A⟩ := by
      rw [hst1]
      dsimp only
      rw [mayLoad_save_self]
    have hia1 : position (fun o => o.1 == (Ballot.mk A).option)
        (Poll.mk poll.creator poll.question optsA).options = some ia := by
      dsimp only
      rw [position_congr optsA poll.options _ hmfA, ← hipa]
      exact hposA
    have hib1 : position (fun o => o.1 == B)
        (Poll.mk poll.creator poll.question optsA).options = some ib := by
      dsimp only
      rw [position_congr optsA poll.options _ hmfA]
      exact hib
    obtain ⟨poll2, h2p, h2a, h2b, h2j, h2ball⟩ :=
      vote_change_step sender pid B (execute_vote sender pid A s).state
        (Poll.mk poll.creator poll.question optsA) ⟨A⟩ ia ib hp1 hb1 hia1 hib1 hne hok2
    refine ⟨Poll.mk poll.creator poll.question optsA, poll2, hp1, h2p, h2a, ?_, ?_, h2ball⟩
    · rw [h2b]
      dsimp only
      rw [hAj ib (fun hw => hne hw.symm)]
    · intro j hja hjb
      rw [h2j j hja hjb]
      dsimp only
      exact hAj j hja
  · rw [← hpX] at hpoA hdecA hst1
    rcases hprev with hprevn | hprevA
    · rw [hprevn] at hbA
      cases hbA
    · rw [hprevA, Option.some_inj] at hbA
      rw [← hbA] at hpoA
      dsimp only at hpoA
      have hpoia : poA = ia := by
        rw [hpoA] at hia
        exact Option.some_inj.mp hia
      rw [hpoia] at hdecA
      have hmfDA : optsDA.map Prod.fst = poll.options.map Prod.fst :=
        adjustAt_map_fst _ _ _ _ hdecA
      have hipaA : ipA = ia := by
        have htr := hipA
        rw [position_congr optsDA poll.options _ hmfDA, hia] at htr
        exact (Option.some_inj.mp htr).symm
      rw [hipaA] at hincA
      have hround : optsA = poll.options :=
        adjustAt_dec_inc poll.options ia optsDA optsA hdecA hincA
      rw [hround] at hst1
      have hp1 : mayLoad (execute_vote sender pid A s).state.polls pid = some poll := by
        rw [hst1]
        dsimp only
        rw [mayLoad_save_self]
      have hb1 : mayLoad (execute_vote sender pid A s).state.ballots (sender, pid) =
          some ⟨A⟩ := by
        rw [hst1]
        dsimp only
        rw [mayLoad_save_self]
      have hia1 : position (fun o => o.1 == (Ballot.mk A).option) poll.options =
          some ia := by
        dsimp only
        exact hia
      obtain ⟨poll2, h2p, h2a, h2b, h2j, h2ball⟩ :=
        vote_change_step sender pid B (execute_vote sender pid A s).state
          poll ⟨A⟩ ia ib hp1 hb1 hia1 hib hne hok2
      exact ⟨poll, poll2, hp1, h2p, h2a, h2b, h2j, h2ball⟩

theorem c5_vote_change_witness :
    ∃ poll1 poll2,
      mayLoad (execute_vote "v" "p" "A"
        (ContractState.mk none [("p", ⟨"c", "q", [("A", 0), ("B", 0)]⟩)] [])).state.polls
        "p" = some poll1 ∧
      mayLoad (execute_vote "v" "p" "B"
        (execute_vote "v" "p" "A"
          (ContractState.mk none [("p", ⟨"c", "q", [("A", 0), ("B", 0)]⟩)]
            [])).state).state.polls "p" = some poll2 ∧
      (poll2.options.getD 0 optDflt).2 + 1 = (poll1.options.getD 0 optDflt).2 ∧
      (poll2.options.getD 1 optDflt).2 =
        (((⟨"c", "q", [("A", 0), ("B", 0)]⟩ : Poll)).options.getD 1 optDflt).2 + 1 ∧
      (∀ j, j ≠ 0 → j ≠ 1 →
        poll2.options.getD j optDflt =
          ((⟨"c", "q", [("A", 0), ("B", 0)]⟩ : Poll)).options.getD j optDflt) ∧
      mayLoad (execute_vote "v" "p" "B"
        (execute_vote "v" "p" "A"
          (ContractState.mk none [("p", ⟨"c", "q", [("A", 0), ("B", 0)]⟩)]
            [])).state).state.ballots ("v", "p") = some ⟨"B"⟩ :=
  c5_vote_change "v" "p" "A" "B"
    (ContractState.mk none [("p", ⟨"c", "q", [("A", 0), ("B", 0)]⟩)] [])
    ⟨"c", "q", [("A", 0), ("B", 0)]⟩ 0 1 (by decide) (by decide) (by decide) (by decide)
    (Or.inl (by decide)) (by decide) (by decide)

/-- A `position` result is a first index: an index with an equal-labelled
entry strictly before it is never returned. -/
theorem position_ne_of_dup (l : List (String × Nat)) (lbl : String) (k i j : Nat)
    (hpos : position (fun o => o.1 == lbl) l = some k)
    (hij : i < j)
    (hlbl : (l.getD i optDflt).1 = (l.getD j optDflt).1) : j ≠ k := by
  intro hw
  rw [← hw] at hpos
  have h1 : (l.getD j optDflt).1 = lbl :=
    eq_of_beq (by simpa using position_getD _ _ _ hpos)
  have h2 := position_earlier _ _ _ hpos i (by omega)
  simp only at h2
  rw [hlbl.trans h1] at h2
  simp at h2

/-- C10: when a poll's option list repeats a label, the step-3 decrement
and the step-5 increment always apply to the first entry bearing the
label, so an entry preceded by an equal-labelled entry at a lower index
is never changed by any Vote call, whatever its outcome. -/
theorem c10_duplicate_labels (sender pid vote : String) (s : ContractState)
    (poll poll' : Poll)
    (hpoll : mayLoad s.polls pid = some poll)
    (hpoll' : mayLoad (execute_vote sender pid vote s).state.polls pid = some poll')
    (j : Nat)
    (hdup : ∃ i, i < j ∧ i < poll.options.length ∧
      (poll.options.getD i optDflt).1 = (poll.options.getD j optDflt).1) :
    poll'.options.getD j optDflt = poll.options.getD j optDflt := by
  obtain ⟨i, hij, hil, hlbl⟩ := hdup
  by_cases hok : (execute_vote sender pid vote s).outcome = .ok
  · obtain ⟨pollX, hpX, hcase⟩ := execute_vote_ok sender pid vote s hok
    rw [hpoll, Option.some_inj] at hpX
    rcases hcase with ⟨hnone, ip, opts2, hpos, hadj, hst⟩ |
      ⟨b, po, optsD, ip, opts2, hb, hpo, hdec, hip, hinc, hst⟩
    · rw [← hpX] at hpos hadj hst
      rw [hst] at hpoll'
      dsimp only at hpoll'
      rw [mayLoad_save_self, Option.some_inj] at hpoll'
      rw [← hpoll']
      dsimp only
      exact adjustAt_getD_ne _ _ _ _ hadj j
        (position_ne_of_dup poll.options vote ip i j hpos hij hlbl)
    · rw [← hpX] at hpo hdec hst
      rw [hst] at hpoll'
      dsimp only at hpoll'
      rw [mayLoad_save_self, Option.some_inj] at hpoll'
      rw [← hpoll']
      dsimp only
      have hmfD : optsD.map Prod.fst = poll.options.map Prod.fst :=
        adjustAt_map_fst _ _ _ _ hdec
      have hipP : position (fun o => o.1 == vote) poll.options = some ip := by
        rw [← position_congr optsD poll.options _ hmfD]
        exact hip
      rw [adjustAt_getD_ne _ _ _ _ hinc j
        (position_ne_of_dup poll.options vote ip i j hipP hij hlbl)]
      exact adjustAt_getD_ne _ _ _ _ hdec j
        (position_ne_of_dup poll.options b.option po i j hpo hij hlbl)
  · have hun := execute_vote_polls_unchanged sender pid vote s hok
    rw [hun, hpoll, Option.some_inj] at hpoll'
    rw [← hpoll']

theorem c10_duplicate_labels_witness :
    mayLoad (execute_vote "v" "p" "A"
        (ContractState.mk none [("p", ⟨"c", "q", [("A", 1), ("A", 0), ("B", 0)]⟩)]
          [(("v", "p"), ⟨"A"⟩)])).state.polls "p" =
      some ⟨"c", "q", [("A", 1), ("A", 0), ("B", 0)]⟩ ∧
    ((⟨"c", "q", [("A", 1), ("A", 0), ("B", 0)]⟩ : Poll)).options.getD 1 optDflt =
      ((⟨"c", "q", [("A", 1), ("A", 0), ("B", 0)]⟩ : Poll)).options.getD 1 optDflt :=
  ⟨by decide,
   c10_duplicate_labels "v" "p" "A"
    (ContractState.mk none [("p", ⟨"c", "q", [("A", 1), ("A", 0), ("B", 0)]⟩)]
      [(("v", "p"), ⟨"A"⟩)])
    ⟨"c", "q", [("A", 1), ("A", 0), ("B", 0)]⟩
    ⟨"c", "q", [("A", 1), ("A", 0), ("B", 0)]⟩
    (by decide) (by decide) 1 ⟨0, by omega, by decide, by decide⟩⟩

end CwStarter
